import Mathlib

/-!
Shallow embedding of the stacked denoising autoencoder coordinator in
`src/TL/SdA.py`.  Each parameter object (a weight matrix or bias vector of a
`HiddenLayer`, `dA` or `LogisticRegression`) is modelled as an atomic rational
value stored in a heap indexed by parameter identifiers, so that the sharing
of one parameter object between several parameter lists (`params`, `params_b`,
a `dA` and its paired sigmoid layer) is explicit.  Theano update lists become
lists of identifier/value pairs applied simultaneously to the heap.
-/

/-- Heap of parameter values, indexed by parameter-object identifier. -/
abbrev Store : Type := Nat → ℚ

/-- Theano update-list semantics: every pair assigns its value, computed from
the old store, to its shared variable; variables with no update keep their
value.  The parameter lists in the source hold distinct shared variables, so
at most one update targets a given identifier. -/
def applyUpdates (store : Store) (upds : List (Nat × ℚ)) : Store :=
  fun id =>
    match upds.find? (fun u => u.1 == id) with
    | some u => u.2
    | none => store id

/-- Python `zip` over four sequences: truncates to the shortest. -/
def zip4 {α β γ δ : Type} : List α → List β → List γ → List δ →
    List (α × β × γ × δ)
  | a :: as, b :: bs, c :: cs, d :: ds => (a, b, c, d) :: zip4 as bs cs ds
  | _, _, _, _ => []

/-- A hidden (sigmoid) layer as built by `SdA.__init__`: its widths and the
identifiers of its weight matrix `W` and bias `b`.  The internal affine math
of `mlp.HiddenLayer` is an external collaborator; only parameter identity and
widths matter to the coordinator. -/
structure HiddenLayerE where
  n_in : Nat
  n_out : Nat
  W : Nat
  b : Nat
  deriving DecidableEq, Repr

/-- Default layer record used with `List.getD`. -/
def hlDefault : HiddenLayerE := { n_in := 0, n_out := 0, W := 0, b := 0 }

/-- Input width of the layer at loop index `i` (`SdA.__init__` lines 119-122):
`n_ins` for the first layer, otherwise the width of the layer below. -/
def layer_input_size (n_ins : Nat) (hidden_layers_sizes : List Nat)
    (i : Nat) : Nat :=
  if i = 0 then n_ins else hidden_layers_sizes.getD (i - 1) 0

/-- The sigmoid layer built at loop index `i` of `SdA.__init__`: input width
from `layer_input_size`, output width `hidden_layers_sizes[i]`, and the two
parameter identifiers `2*i` and `2*i+1` in allocation order. -/
def mkLayer (n_ins : Nat) (hidden_layers_sizes : List Nat)
    (i : Nat) : HiddenLayerE :=
  { n_in := layer_input_size n_ins hidden_layers_sizes i
  , n_out := hidden_layers_sizes.getD i 0
  , W := 2 * i
  , b := 2 * i + 1 }

/-- The list of sigmoid layers built by the construction loop. -/
def sdaLayers (n_ins : Nat) (hidden_layers_sizes : List Nat) :
    List HiddenLayerE :=
  (List.range hidden_layers_sizes.length).map (mkLayer n_ins hidden_layers_sizes)

/-- The hidden-layer parameters collected by the construction loop, in order:
`W` then `b` of each layer (both `self.params.extend(sigmoid_layer.params)`
and `self.params_b.extend(sigmoid_layer.params)` append exactly this). -/
def sdaLayerParams (n_ins : Nat) (hidden_layers_sizes : List Nat) : List Nat :=
  (sdaLayers n_ins hidden_layers_sizes).flatMap (fun l => [l.W, l.b])

/-- State of an `SdA` object after construction, as far as the claims need:
layer records, the `dA` parameter triples (weight, hidden bias, private
visible bias), both parameter lists, both output heads' parameter pairs, and
an allocator counter for fresh parameter identifiers. -/
structure SdAState where
  n_layers : Nat
  sigmoid_layers : List HiddenLayerE
  dA_layers : List (Nat × Nat × Nat)
  params : List Nat
  params_b : List Nat
  logLayer : Nat × Nat
  logLayer_b : Nat × Nat
  nextId : Nat
  deriving DecidableEq, Repr

/-- `SdA.__init__`: builds one sigmoid layer per hidden width, a paired `dA`
sharing that layer's `W` and `b` (`W=sigmoid_layer.W`, `bhid=sigmoid_layer.b`,
lines 150-158) and owning a private visible bias, then the primary head
`logLayer` and the unconditionally constructed secondary head `logLayer_b`.
`params` collects every layer's `W`,`b` then the primary head's pair;
`params_b` collects the same layer parameters then the secondary head's pair.
Returns `none` when `hidden_layers_sizes` is empty, mirroring the
`assert self.n_layers > 0`. -/
def SdA_init (n_ins : Nat) (hidden_layers_sizes : List Nat) : Option SdAState :=
  if 0 < hidden_layers_sizes.length then
    some
      { n_layers := hidden_layers_sizes.length
      , sigmoid_layers := sdaLayers n_ins hidden_layers_sizes
      , dA_layers := (sdaLayers n_ins hidden_layers_sizes).enum.map
          (fun p => (p.2.W, p.2.b, 2 * hidden_layers_sizes.length + 4 + p.1))
      , params := sdaLayerParams n_ins hidden_layers_sizes ++
          [2 * hidden_layers_sizes.length, 2 * hidden_layers_sizes.length + 1]
      , params_b := sdaLayerParams n_ins hidden_layers_sizes ++
          [2 * hidden_layers_sizes.length + 2, 2 * hidden_layers_sizes.length + 3]
      , logLayer :=
          (2 * hidden_layers_sizes.length, 2 * hidden_layers_sizes.length + 1)
      , logLayer_b :=
          (2 * hidden_layers_sizes.length + 2, 2 * hidden_layers_sizes.length + 3)
      , nextId := 2 * hidden_layers_sizes.length + 4 + hidden_layers_sizes.length }
  else none

/-- `SdA.change_lastlayer`: builds a fresh secondary `LogisticRegression`
(two freshly allocated parameter identifiers), pops the last two entries of
`params_b` (Python `list.pop` raises `IndexError` on an empty list, modelled
as `none`), and appends the new head's two parameters. -/
def change_lastlayer (s : SdAState) (_nIns _nOuts : Nat) : Option SdAState :=
  if 2 ≤ s.params_b.length then
    some
      { s with
        params_b := s.params_b.dropLast.dropLast ++ [s.nextId, s.nextId + 1]
      , logLayer_b := (s.nextId, s.nextId + 1)
      , nextId := s.nextId + 2 }
  else none

/-- A concrete constructed state: `SdA_init 10 [5, 3]` (input width 10, hidden
widths 5 and 3). -/
def sEx : SdAState :=
  { n_layers := 2
  , sigmoid_layers := [{ n_in := 10, n_out := 5, W := 0, b := 1 },
                       { n_in := 5, n_out := 3, W := 2, b := 3 }]
  , dA_layers := [(0, 1, 8), (2, 3, 9)]
  , params := [0, 1, 2, 3, 4, 5]
  , params_b := [0, 1, 2, 3, 6, 7]
  , logLayer := (4, 5)
  , logLayer_b := (6, 7)
  , nextId := 10 }

/-- A concrete store mapping each identifier to its numeral. -/
def storeC : Store := fun id => (id : ℚ)

/-- Update list built by `SdA.build_finetune_functions` (lines 346-351): the
gradient list of the objective with respect to the whole ordered parameter
list (produced by the external autodifferentiation engine) is zipped
positionally with the parameters, and each pair contributes the plain
gradient-descent update whose new value is `param - gparam * learning_rate`,
computed from the old heap. -/
def finetune_updates (params : List Nat) (gparams : List ℚ) (store : Store)
    (learning_rate : ℚ) : List (Nat × ℚ) :=
  (params.zip gparams).map
    (fun pg => (pg.1, store pg.1 - pg.2 * learning_rate))

/-- One loop iteration of the masked update construction in
`SdA.build_finetune_functions_reuse` (lines 487-503): mask value 0 appends
the identity update, mask value 1 appends the gradient-descent update, any
other value appends nothing; the even/odd test on `layer_num` mirrors the
weight/bias branches of the source, whose two arms are identical. -/
def reuse_update_entry (store : Store) (learning_rate : ℚ)
    (e : Nat × ℚ × Nat × Nat) : List (Nat × ℚ) :=
  match e with
  | (param, gparam, update, layer_num) =>
      if update = 0 then
        if layer_num % 2 = 0 then [(param, store param)]
        else [(param, store param)]
      else if update = 1 then
        if layer_num % 2 = 0 then
          [(param, store param - gparam * learning_rate)]
        else [(param, store param - gparam * learning_rate)]
      else []

/-- Update list built by `SdA.build_finetune_functions_reuse` (lines
479-503): the secondary parameters, their gradients, the user mask
`update_layerwise` and `total_n_layers = range((n_layers + 1) * 2)` are
zipped - so any length mismatch silently truncates, as Python `zip` does -
and each tuple contributes its entry. -/
def finetune_updates_reuse (n_layers : Nat) (params_b : List Nat)
    (gparams : List ℚ) (store : Store) (learning_rate : ℚ)
    (update_layerwise : List Nat) : List (Nat × ℚ) :=
  (zip4 params_b gparams update_layerwise
      (List.range ((n_layers + 1) * 2))).flatMap
    (reuse_update_entry store learning_rate)

/-- Number of batches (`build_test_function` lines 271-272,
`build_finetune_functions` lines 340-341, `pretraining_functions` line 243):
Python 2 integer division, flooring away any trailing partial batch. -/
def n_batches (size batch_size : Nat) : Nat := size / batch_size

/-- The dataset slice `[i * batch_size : (i + 1) * batch_size]`. -/
def batch_slice {α : Type} (xs : List α) (batch_size i : Nat) : List α :=
  (xs.drop (i * batch_size)).take batch_size

/-- The `test_score` closure returned by `SdA.build_test_function` (lines
300-311): for every batch index in order, the batch's ground-truth labels,
per-example predicted labels and per-example class-probability rows are
collected and chained into three parallel sequences, returned as
`(y_test, y_pred, y_pred_prob)` in the source's order.  `pred` and
`pred_prob` are the row-wise prediction and probability functions of the
head (external collaborator applied row by row to the batch matrix). -/
def test_score {α β γ : Type} (pred : α → β) (pred_prob : α → γ)
    (xs : List α) (ys : List Nat) (batch_size : Nat) :
    List Nat × List β × List γ :=
  ( (List.range (n_batches xs.length batch_size)).flatMap
      (fun i => batch_slice ys batch_size i)
  , (List.range (n_batches xs.length batch_size)).flatMap
      (fun i => (batch_slice xs batch_size i).map pred)
  , (List.range (n_batches xs.length batch_size)).flatMap
      (fun i => (batch_slice xs batch_size i).map pred_prob) )

/-- Modelled from the spec: `dA.get_cost_updates` (file `dA.py`, a building
block of this repository that is not part of the source snapshot) returns
one gradient-descent update for exactly the autoencoder's own parameters -
the weight `W` and hidden bias `bhid` it shares with sigmoid layer `i`
(`SdA.__init__` lines 150-158) and its private visible bias - leaving all
other layers untouched; the updated values themselves are left abstract
here.  One call of the function compiled for layer `i` by
`SdA.pretraining_functions` (lines 249-263) therefore writes exactly those
three heap cells. -/
def pretrain_step (s : SdAState) (i : Nat) (newW newB newBp : ℚ)
    (store : Store) : Store :=
  match s.dA_layers[i]? with
  | some d => applyUpdates store [(d.1, newW), (d.2.1, newB), (d.2.2, newBp)]
  | none => store

/-- Concrete ten-element dataset used in witnesses. -/
def exListTen : List Nat := [0, 1, 2, 3, 4, 5, 6, 7, 8, 9]

/-- Concrete eight-element dataset used in witnesses. -/
def exListEight : List Nat := [0, 1, 2, 3, 4, 5, 6, 7]

/- ------------------------------------------------------------------ -/
/- Helper lemmas                                                      -/
/- ------------------------------------------------------------------ -/

theorem bind_pair_length {α : Type} (f g : α → Nat) (l : List α) :
    (l.flatMap (fun x => [f x, g x])).length = 2 * l.length := by
  induction l with
  | nil => rfl
  | cons a t ih =>
      simp only [List.flatMap_cons, List.length_append, List.length_cons, ih]
      simp only [List.length_nil]
      omega

theorem sdaLayers_length (n_ins : Nat) (hs : List Nat) :
    (sdaLayers n_ins hs).length = hs.length := by
  simp [sdaLayers]

theorem sdaLayerParams_length (n_ins : Nat) (hs : List Nat) :
    (sdaLayerParams n_ins hs).length = 2 * hs.length := by
  rw [sdaLayerParams, bind_pair_length, sdaLayers_length]

theorem dropLast_two {α : Type} (l : List α) (a b : α) :
    ((l ++ [a, b]).dropLast).dropLast = l := by
  have h1 : l ++ [a, b] = (l ++ [a]) ++ [b] := by simp
  rw [h1, List.dropLast_concat, List.dropLast_concat]

theorem SdA_init_some (n_ins : Nat) (hs : List Nat) (s : SdAState)
    (h : SdA_init n_ins hs = some s) :
    0 < hs.length ∧
    s = { n_layers := hs.length
        , sigmoid_layers := sdaLayers n_ins hs
        , dA_layers := (sdaLayers n_ins hs).enum.map
            (fun p => (p.2.W, p.2.b, 2 * hs.length + 4 + p.1))
        , params := sdaLayerParams n_ins hs ++ [2 * hs.length, 2 * hs.length + 1]
        , params_b := sdaLayerParams n_ins hs ++
            [2 * hs.length + 2, 2 * hs.length + 3]
        , logLayer := (2 * hs.length, 2 * hs.length + 1)
        , logLayer_b := (2 * hs.length + 2, 2 * hs.length + 3)
        , nextId := 2 * hs.length + 4 + hs.length } := by
  rw [SdA_init] at h
  split at h
  · exact ⟨by assumption, (Option.some.injEq _ _ ▸ h).symm⟩
  · exact absurd h (by simp)

theorem SdA_init_fields (n_ins : Nat) (hs : List Nat) (s : SdAState)
    (h : SdA_init n_ins hs = some s) :
    s.n_layers = hs.length ∧
    s.sigmoid_layers = sdaLayers n_ins hs ∧
    s.params = sdaLayerParams n_ins hs ++ [2 * hs.length, 2 * hs.length + 1] ∧
    s.params_b = sdaLayerParams n_ins hs ++
      [2 * hs.length + 2, 2 * hs.length + 3] ∧
    s.logLayer = (2 * hs.length, 2 * hs.length + 1) ∧
    s.logLayer_b = (2 * hs.length + 2, 2 * hs.length + 3) ∧
    s.nextId = 2 * hs.length + 4 + hs.length ∧
    s.dA_layers = (sdaLayers n_ins hs).enum.map
      (fun p => (p.2.W, p.2.b, 2 * hs.length + 4 + p.1)) := by
  obtain ⟨hn, rfl⟩ := SdA_init_some n_ins hs s h
  exact ⟨rfl, rfl, rfl, rfl, rfl, rfl, rfl, rfl⟩

theorem sdaLayers_getD (n_ins : Nat) (hs : List Nat) (i : Nat)
    (hi : i < hs.length) :
    (sdaLayers n_ins hs).getD i hlDefault = mkLayer n_ins hs i := by
  rw [sdaLayers, List.getD_eq_getElem?_getD, List.getElem?_map,
    List.getElem?_range hi]
  rfl

theorem change_lastlayer_isSome (t : SdAState) (ni no : Nat)
    (h2 : 2 ≤ t.params_b.length) : (change_lastlayer t ni no).isSome = true := by
  rw [change_lastlayer, if_pos h2]
  rfl

/- ------------------------------------------------------------------ -/
/- Claim theorems                                                     -/
/- ------------------------------------------------------------------ -/

/-- C1: after construction with `n_layers ≥ 1` hidden layers the secondary
parameter set has length exactly `2 * n_layers + 2`, and `change_lastlayer`
preserves this length: it removes exactly the last two entries and appends
exactly the two parameters of the new secondary head. -/
theorem C1_secondary_params_length (n_ins : Nat) (hs : List Nat) (s : SdAState)
    (h : SdA_init n_ins hs = some s) (ni no : Nat) :
    s.params_b.length = 2 * hs.length + 2 ∧
    ∃ s', change_lastlayer s ni no = some s' ∧
      s'.params_b = s.params_b.dropLast.dropLast ++ [s.nextId, s.nextId + 1] ∧
      s'.logLayer_b = (s.nextId, s.nextId + 1) ∧
      s'.params_b.length = 2 * hs.length + 2 := by
  obtain ⟨hn, rfl⟩ := SdA_init_some n_ins hs s h
  have hlen : (sdaLayerParams n_ins hs ++
      [2 * hs.length + 2, 2 * hs.length + 3]).length = 2 * hs.length + 2 := by
    simp [sdaLayerParams_length]
  refine ⟨hlen, ?_⟩
  rw [change_lastlayer]
  split
  · refine ⟨_, rfl, rfl, rfl, ?_⟩
    show ((sdaLayerParams n_ins hs ++
        [2 * hs.length + 2, 2 * hs.length + 3]).dropLast.dropLast ++
        [2 * hs.length + 4 + hs.length, 2 * hs.length + 4 + hs.length + 1]).length
      = 2 * hs.length + 2
    rw [dropLast_two]
    simp [sdaLayerParams_length]
  · rename_i hlt
    refine absurd ?_ hlt
    show 2 ≤ (sdaLayerParams n_ins hs ++
        [2 * hs.length + 2, 2 * hs.length + 3]).length
    omega

/-- Witness for C1 at input width 10, hidden widths 5 and 3. -/
theorem C1_secondary_params_length_witness :
    SdA_init 10 [5, 3] = some sEx ∧ sEx.params_b.length = 2 * 2 + 2 :=
  ⟨by decide, (C1_secondary_params_length 10 [5, 3] sEx (by decide) 3 4).1⟩

/-- C9: after construction, layer 0's input width is the model input width
`n_ins`, and for every layer index `i ≥ 1` the input width of layer `i`
equals the output width of layer `i - 1`, which is
`hidden_layers_sizes[i - 1]`. -/
theorem C9_width_chaining (n_ins : Nat) (hs : List Nat) (s : SdAState)
    (h : SdA_init n_ins hs = some s) :
    (s.sigmoid_layers.getD 0 hlDefault).n_in = n_ins ∧
    ∀ i, 0 < i → i < s.n_layers →
      (s.sigmoid_layers.getD i hlDefault).n_in
        = (s.sigmoid_layers.getD (i - 1) hlDefault).n_out ∧
      (s.sigmoid_layers.getD i hlDefault).n_in = hs.getD (i - 1) 0 := by
  have hn : 0 < hs.length := (SdA_init_some n_ins hs s h).1
  obtain ⟨hnl, hsl, -, -, -, -, -, -⟩ := SdA_init_fields n_ins hs s h
  rw [hnl, hsl]
  refine ⟨?_, ?_⟩
  · rw [sdaLayers_getD n_ins hs 0 hn]
    rfl
  · intro i h0 hi
    rw [sdaLayers_getD n_ins hs i hi, sdaLayers_getD n_ins hs (i - 1) (by omega)]
    refine ⟨?_, ?_⟩ <;>
      · show layer_input_size n_ins hs i = hs.getD (i - 1) 0
        rw [layer_input_size, if_neg (by omega)]

/-- Witness for C9: in `SdA_init 10 [5, 3]`, layer 1's input width equals
layer 0's output width. -/
theorem C9_width_chaining_witness :
    (sEx.sigmoid_layers.getD 1 hlDefault).n_in
      = (sEx.sigmoid_layers.getD 0 hlDefault).n_out :=
  ((C9_width_chaining 10 [5, 3] sEx (by decide)).2 1 (by decide) (by decide)).1

/-- C10: after construction the primary and secondary parameter sets have
length `2 * n_layers + 2`, share their first `2 * n_layers` entries (the
hidden layers' parameter objects appear identically in both), and differ
exactly in their last two entries (primary versus secondary head parameters);
consequently both heads read any shared hidden-layer parameter from the same
heap cell. -/
theorem C10_shared_feature_params (n_ins : Nat) (hs : List Nat) (s : SdAState)
    (h : SdA_init n_ins hs = some s) :
    s.params.length = 2 * s.n_layers + 2 ∧
    s.params_b.length = 2 * s.n_layers + 2 ∧
    s.params.take (2 * s.n_layers) = s.params_b.take (2 * s.n_layers) ∧
    s.params.drop (2 * s.n_layers) = [s.logLayer.1, s.logLayer.2] ∧
    s.params_b.drop (2 * s.n_layers) = [s.logLayer_b.1, s.logLayer_b.2] ∧
    s.params.drop (2 * s.n_layers) ≠ s.params_b.drop (2 * s.n_layers) ∧
    ∀ (store : Store) (k : Nat), k < 2 * s.n_layers →
      store (s.params.getD k 0) = store (s.params_b.getD k 0) := by
  have hLP : (sdaLayerParams n_ins hs).length = 2 * hs.length :=
    sdaLayerParams_length n_ins hs
  obtain ⟨hnl, -, hp, hpb, hlog, hlogb, -, -⟩ := SdA_init_fields n_ins hs s h
  rw [hnl, hp, hpb, hlog, hlogb]
  have hdrop1 : (sdaLayerParams n_ins hs ++
      [2 * hs.length, 2 * hs.length + 1]).drop (2 * hs.length)
      = [2 * hs.length, 2 * hs.length + 1] := by
    rw [← hLP, List.drop_left]
  have hdrop2 : (sdaLayerParams n_ins hs ++
      [2 * hs.length + 2, 2 * hs.length + 3]).drop (2 * hs.length)
      = [2 * hs.length + 2, 2 * hs.length + 3] := by
    rw [← hLP, List.drop_left]
  refine ⟨by simp [hLP], by simp [hLP], ?_, ?_, ?_, ?_, ?_⟩
  · rw [← hLP, List.take_left, List.take_left]
  · rw [hdrop1]
  · rw [hdrop2]
  · rw [hdrop1, hdrop2]
    intro hcontra
    injection hcontra with h1 h2
    omega
  · intro store k hk
    have hk' : k < (sdaLayerParams n_ins hs).length := by omega
    rw [List.getD_append _ _ _ _ hk', List.getD_append _ _ _ _ hk']

/-- Witness for C10: in `SdA_init 10 [5, 3]` the two parameter lists share
their first four entries. -/
theorem C10_shared_feature_params_witness :
    sEx.params.take (2 * sEx.n_layers) = sEx.params_b.take (2 * sEx.n_layers) :=
  (C10_shared_feature_params 10 [5, 3] sEx (by decide)).2.2.1

/-- C8: construction always initializes the secondary head (its two
parameters are the last two entries of `params_b`), so `change_lastlayer`
succeeds on every constructed coordinator; on a state whose secondary
parameter list lacks the head's two parameters, the two `pop` calls fail. -/
theorem C8_change_lastlayer_requires_head (n_ins : Nat) (hs : List Nat)
    (s : SdAState) (h : SdA_init n_ins hs = some s) (ni no : Nat) :
    s.params_b.drop (2 * s.n_layers) = [s.logLayer_b.1, s.logLayer_b.2] ∧
    (change_lastlayer s ni no).isSome = true ∧
    ∀ t : SdAState, t.params_b.length < 2 → change_lastlayer t ni no = none := by
  have hLP : (sdaLayerParams n_ins hs).length = 2 * hs.length :=
    sdaLayerParams_length n_ins hs
  obtain ⟨hnl, -, -, hpb, -, hlogb, -, -⟩ := SdA_init_fields n_ins hs s h
  refine ⟨?_, ?_, ?_⟩
  · rw [hnl, hpb, hlogb, ← hLP, List.drop_left]
  · refine change_lastlayer_isSome s ni no ?_
    rw [hpb]
    simp
  · intro t ht
    rw [change_lastlayer, if_neg (by omega)]

/-- Witness for C8: `change_lastlayer` succeeds on the constructed state
`SdA_init 10 [5, 3]`. -/
theorem C8_change_lastlayer_requires_head_witness :
    (change_lastlayer sEx 3 4).isSome = true :=
  (C8_change_lastlayer_requires_head 10 [5, 3] sEx (by decide) 3 4).2.1

theorem finetune_updates_find_none (params : List Nat) (gparams : List ℚ)
    (store : Store) (lr : ℚ) (id : Nat) (h : id ∉ params) :
    (finetune_updates params gparams store lr).find? (fun u => u.1 == id)
      = none := by
  rw [List.find?_eq_none]
  intro u hu
  rw [finetune_updates] at hu
  obtain ⟨⟨p, g⟩, hpg, rfl⟩ := List.mem_map.1 hu
  have hp : p ∈ params := (List.of_mem_zip hpg).1
  simp only [beq_iff_eq]
  intro hcontra
  exact h (hcontra ▸ hp)

theorem finetune_updates_find_getD (params : List Nat) (gparams : List ℚ)
    (store : Store) (lr : ℚ) (k : Nat) (hnd : params.Nodup)
    (hlen : gparams.length = params.length) (hk : k < params.length) :
    (finetune_updates params gparams store lr).find?
        (fun u => u.1 == params.getD k 0)
      = some (params.getD k 0,
          store (params.getD k 0) - gparams.getD k 0 * lr) := by
  induction params generalizing gparams k with
  | nil => exact absurd hk (by simp)
  | cons p pt ih =>
      cases gparams with
      | nil => exact absurd hlen (by simp)
      | cons g gt =>
          cases k with
          | zero =>
              rw [finetune_updates]
              simp only [List.zip_cons_cons, List.map_cons, List.getD_cons_zero]
              rw [List.find?_cons_of_pos _ (by simp)]
          | succ k' =>
              have hpt : p ∉ pt := (List.nodup_cons.1 hnd).1
              have hk' : k' < pt.length := by simpa using hk
              have hmem : pt.getD k' 0 ∈ pt := by
                rw [List.getD_eq_getElem?_getD, List.getElem?_eq_getElem hk']
                exact List.getElem_mem hk'
              have hgetD : (p :: pt).getD (k' + 1) 0 = pt.getD k' 0 := rfl
              rw [hgetD, finetune_updates]
              simp only [List.zip_cons_cons, List.map_cons]
              rw [List.find?_cons_of_neg _ (by
                simp only [beq_iff_eq]
                intro hcontra
                exact hpt (hcontra ▸ hmem))]
              exact ih gt k' (List.nodup_cons.1 hnd).2 (by simpa using hlen) hk'

/-- C6: the training step built by `build_finetune_functions` computes, from
the gradient list of the objective over the whole ordered parameter set, one
update per parameter in positional lockstep, each of the form
`param := param - gparam * learning_rate`, applied as one simultaneous batch
update that touches no heap cell outside the parameter set. -/
theorem C6_finetune_step_updates (params : List Nat) (gparams : List ℚ)
    (store : Store) (lr : ℚ) (hnd : params.Nodup)
    (hlen : gparams.length = params.length) :
    (finetune_updates params gparams store lr).length = params.length ∧
    (∀ k, k < params.length →
      applyUpdates store (finetune_updates params gparams store lr)
          (params.getD k 0)
        = store (params.getD k 0) - gparams.getD k 0 * lr) ∧
    (∀ id, id ∉ params →
      applyUpdates store (finetune_updates params gparams store lr) id
        = store id) := by
  refine ⟨?_, ?_, ?_⟩
  · rw [finetune_updates]
    simp [hlen]
  · intro k hk
    simp only [applyUpdates]
    rw [finetune_updates_find_getD params gparams store lr k hnd hlen hk]
  · intro id hid
    simp only [applyUpdates]
    rw [finetune_updates_find_none params gparams store lr id hid]

/-- Witness for C6 at four parameters with gradient list `[1, 2, 3, 4]` and
learning rate `1/2`. -/
theorem C6_finetune_step_updates_witness :
    applyUpdates storeC
        (finetune_updates [0, 1, 2, 3] [1, 2, 3, 4] storeC (1 / 2)) 1
      = storeC 1 - 2 * (1 / 2) :=
  (C6_finetune_step_updates [0, 1, 2, 3] [1, 2, 3, 4] storeC (1 / 2)
      (by decide) (by decide)).2.1 1 (by decide)

theorem reuse_updates_allone (params : List Nat) (gparams : List ℚ)
    (d : List Nat) (store : Store) (lr : ℚ) (m : Nat)
    (hg : gparams.length = params.length) (hm : params.length ≤ m)
    (hd : params.length ≤ d.length) :
    (zip4 params gparams (List.replicate m 1) d).flatMap
        (reuse_update_entry store lr)
      = finetune_updates params gparams store lr := by
  induction params generalizing gparams m d with
  | nil =>
      cases gparams with
      | nil => rfl
      | cons g gt => exact absurd hg (by simp)
  | cons p pt ih =>
      cases gparams with
      | nil => exact absurd hg (by simp)
      | cons g gt =>
          obtain ⟨m', rfl⟩ : ∃ m', m = m' + 1 := ⟨m - 1, by simp at hm; omega⟩
          cases d with
          | nil => exact absurd hd (by simp)
          | cons e dt =>
              rw [List.replicate_succ]
              rw [show zip4 (p :: pt) (g :: gt) (1 :: List.replicate m' 1)
                  (e :: dt) = (p, g, 1, e) :: zip4 pt gt (List.replicate m' 1) dt
                from rfl]
              rw [List.flatMap_cons]
              have he : reuse_update_entry store lr (p, g, 1, e)
                  = [(p, store p - g * lr)] := by
                simp [reuse_update_entry]
              rw [he, ih gt dt m' (by simpa using hg) (by simp at hm; omega)
                (by simpa using hd)]
              rfl

/-- C2: with an all-one update mask (of the secondary parameter set's length
`(n_layers + 1) * 2`), the update list built by
`build_finetune_functions_reuse` coincides with the one built by
`build_finetune_functions` on identical parameters, gradients, heap and
learning rate, so one training step leaves every parameter with exactly the
same value under both. -/
theorem C2_allone_mask_matches_plain (n_layers : Nat) (params : List Nat)
    (gparams : List ℚ) (store : Store) (lr : ℚ)
    (hp : params.length = (n_layers + 1) * 2)
    (hg : gparams.length = params.length) :
    finetune_updates_reuse n_layers params gparams store lr
        (List.replicate params.length 1)
      = finetune_updates params gparams store lr ∧
    ∀ id, applyUpdates store (finetune_updates_reuse n_layers params gparams
        store lr (List.replicate params.length 1)) id
      = applyUpdates store (finetune_updates params gparams store lr) id := by
  have heq : finetune_updates_reuse n_layers params gparams store lr
      (List.replicate params.length 1)
      = finetune_updates params gparams store lr := by
    rw [finetune_updates_reuse]
    exact reuse_updates_allone params gparams (List.range ((n_layers + 1) * 2))
      store lr params.length hg le_rfl (by simp [hp])
  exact ⟨heq, fun id => by rw [heq]⟩

/-- Witness for C2 at one hidden layer, four parameters, gradients
`[1, 2, 3, 4]` and learning rate `1/2`. -/
theorem C2_allone_mask_matches_plain_witness :
    finetune_updates_reuse 1 [0, 1, 2, 3] [1, 2, 3, 4] storeC (1 / 2)
        (List.replicate 4 1)
      = finetune_updates [0, 1, 2, 3] [1, 2, 3, 4] storeC (1 / 2) :=
  (C2_allone_mask_matches_plain 1 [0, 1, 2, 3] [1, 2, 3, 4] storeC (1 / 2)
      (by decide) (by decide)).1

theorem reuse_updates_allzero_mem (params : List Nat) (gparams : List ℚ)
    (m d : List Nat) (store : Store) (lr : ℚ) (hm : ∀ x ∈ m, x = 0) :
    ∀ u ∈ (zip4 params gparams m d).flatMap (reuse_update_entry store lr),
      u.2 = store u.1 := by
  induction params generalizing gparams m d with
  | nil =>
      intro u hu
      exact absurd hu (by
        rw [show zip4 ([] : List Nat) gparams m d = [] from rfl]
        simp)
  | cons p pt ih =>
      intro u hu
      cases gparams with
      | nil =>
          exact absurd hu (by
            rw [show zip4 (p :: pt) ([] : List ℚ) m d = [] from rfl]
            simp)
      | cons g gt =>
          cases m with
          | nil =>
              exact absurd hu (by
                rw [show zip4 (p :: pt) (g :: gt) ([] : List Nat) d = []
                  from rfl]
                simp)
          | cons x mt =>
              cases d with
              | nil =>
                  exact absurd hu (by
                    rw [show zip4 (p :: pt) (g :: gt) (x :: mt)
                        ([] : List Nat) = [] from rfl]
                    simp)
              | cons e dt =>
                  have hx : x = 0 := hm x (by simp)
                  subst hx
                  have he : reuse_update_entry store lr (p, g, 0, e)
                      = [(p, store p)] := by
                    simp [reuse_update_entry]
                  rw [show zip4 (p :: pt) (g :: gt) (0 :: mt) (e :: dt)
                      = (p, g, 0, e) :: zip4 pt gt mt dt from rfl,
                    List.flatMap_cons, he] at hu
                  rcases List.mem_append.1 hu with h1 | h2
                  · obtain rfl := List.mem_singleton.1 h1
                    rfl
                  · exact ih gt mt dt
                      (fun y hy => hm y (List.mem_cons_of_mem _ hy)) u h2

/-- C4: one training step built by `build_finetune_functions_reuse` with an
all-zero update mask leaves every heap cell, in particular every secondary
parameter, numerically unchanged: every masked-off position contributes the
identity update assigning `param` its own old value. -/
theorem C4_allzero_mask_identity (n_layers : Nat) (params : List Nat)
    (gparams : List ℚ) (store : Store) (lr : ℚ) :
    (∀ u ∈ finetune_updates_reuse n_layers params gparams store lr
        (List.replicate params.length 0), u.2 = store u.1) ∧
    ∀ id, applyUpdates store (finetune_updates_reuse n_layers params gparams
        store lr (List.replicate params.length 0)) id = store id := by
  have hmem := reuse_updates_allzero_mem params gparams
    (List.replicate params.length 0) (List.range ((n_layers + 1) * 2))
    store lr (fun x hx => List.eq_of_mem_replicate hx)
  refine ⟨hmem, ?_⟩
  intro id
  simp only [applyUpdates]
  cases hfind : (finetune_updates_reuse n_layers params gparams store lr
      (List.replicate params.length 0)).find? (fun u => u.1 == id) with
  | none => rfl
  | some u =>
      have h1 : u.1 = id := by
        have := List.find?_some hfind
        simpa using this
      have h2 := List.mem_of_find?_eq_some hfind
      have h3 : u.2 = store u.1 := hmem u h2
      show u.2 = store id
      rw [h3, h1]

/-- Witness for C4 at one hidden layer, four parameters, gradients
`[1, 2, 3, 4]` and learning rate `1/2`. -/
theorem C4_allzero_mask_identity_witness :
    applyUpdates storeC (finetune_updates_reuse 1 [0, 1, 2, 3] [1, 2, 3, 4]
        storeC (1 / 2) (List.replicate 4 0)) 2 = storeC 2 :=
  (C4_allzero_mask_identity 1 [0, 1, 2, 3] [1, 2, 3, 4] storeC (1 / 2)).2 2

theorem zip4_length {α β γ δ : Type} (a : List α) (b : List β) (c : List γ)
    (d : List δ) :
    (zip4 a b c d).length
      = min (min a.length b.length) (min c.length d.length) := by
  induction a generalizing b c d with
  | nil => simp [show zip4 ([] : List α) b c d = [] from rfl]
  | cons x as' ih =>
      cases b with
      | nil => simp [show zip4 (x :: as') ([] : List β) c d = [] from rfl]
      | cons y bt =>
          cases c with
          | nil =>
              simp [show zip4 (x :: as') (y :: bt) ([] : List γ) d = []
                from rfl]
          | cons z ct =>
              cases d with
              | nil =>
                  simp [show zip4 (x :: as') (y :: bt) (z :: ct)
                      ([] : List δ) = [] from rfl]
              | cons w dt =>
                  rw [show zip4 (x :: as') (y :: bt) (z :: ct) (w :: dt)
                      = (x, y, z, w) :: zip4 as' bt ct dt from rfl]
                  rw [List.length_cons, ih bt ct dt]
                  simp only [List.length_cons]
                  omega

theorem reuse_updates_length_mask01 (params : List Nat) (gparams : List ℚ)
    (m d : List Nat) (store : Store) (lr : ℚ)
    (hm : ∀ x ∈ m, x = 0 ∨ x = 1) :
    ((zip4 params gparams m d).flatMap (reuse_update_entry store lr)).length
      = (zip4 params gparams m d).length := by
  induction params generalizing gparams m d with
  | nil => rw [show zip4 ([] : List Nat) gparams m d = [] from rfl]; rfl
  | cons p pt ih =>
      cases gparams with
      | nil => rw [show zip4 (p :: pt) ([] : List ℚ) m d = [] from rfl]; rfl
      | cons g gt =>
          cases m with
          | nil =>
              rw [show zip4 (p :: pt) (g :: gt) ([] : List Nat) d = []
                from rfl]
              rfl
          | cons x mt =>
              cases d with
              | nil =>
                  rw [show zip4 (p :: pt) (g :: gt) (x :: mt)
                      ([] : List Nat) = [] from rfl]
                  rfl
              | cons e dt =>
                  rw [show zip4 (p :: pt) (g :: gt) (x :: mt) (e :: dt)
                      = (p, g, x, e) :: zip4 pt gt mt dt from rfl,
                    List.flatMap_cons]
                  have hx := hm x (by simp)
                  have hlen1 : (reuse_update_entry store lr (p, g, x, e)).length
                      = 1 := by
                    rcases hx with rfl | rfl <;> simp [reuse_update_entry]
                  rw [List.length_append, hlen1,
                    ih gt mt dt (fun y hy => hm y (List.mem_cons_of_mem _ hy)),
                    List.length_cons]
                  omega

theorem flatMap_batch_slice {α : Type} (xs : List α) (bs k : Nat) :
    (List.range k).flatMap (fun i => batch_slice xs bs i)
      = xs.take (k * bs) := by
  induction k with
  | zero => simp
  | succ k ih =>
      rw [List.range_succ, List.flatMap_append, ih, Nat.succ_mul,
        List.take_add]
      simp [batch_slice]

theorem flatMap_batch_slice_map {α β : Type} (f : α → β) (xs : List α)
    (bs k : Nat) :
    (List.range k).flatMap (fun i => (batch_slice xs bs i).map f)
      = (xs.take (k * bs)).map f := by
  rw [← flatMap_batch_slice xs bs k, List.map_flatMap]

/-- C7: the `test_score` closure concatenates per-batch outputs in dataset
order into three parallel sequences of length `n_batches * batch_size`, and
position `k` of each sequence corresponds to input example `k`: it carries
example `k`'s ground-truth label, predicted label and probability row. -/
theorem C7_test_score_order {α β γ : Type} (pred : α → β) (prob : α → γ)
    (xs : List α) (ys : List Nat) (bs : Nat) (hlen : ys.length = xs.length) :
    ((test_score pred prob xs ys bs).1.length
        = n_batches xs.length bs * bs ∧
      (test_score pred prob xs ys bs).2.1.length
        = n_batches xs.length bs * bs ∧
      (test_score pred prob xs ys bs).2.2.length
        = n_batches xs.length bs * bs) ∧
    ∀ k, k < n_batches xs.length bs * bs →
      ((test_score pred prob xs ys bs).1[k]? = ys[k]? ∧
        (test_score pred prob xs ys bs).2.1[k]? = xs[k]?.map pred ∧
        (test_score pred prob xs ys bs).2.2[k]? = xs[k]?.map prob) := by
  have hcover : n_batches xs.length bs * bs ≤ xs.length :=
    Nat.div_mul_le_self xs.length bs
  have h1 : (test_score pred prob xs ys bs).1
      = ys.take (n_batches xs.length bs * bs) :=
    flatMap_batch_slice ys bs (n_batches xs.length bs)
  have h2 : (test_score pred prob xs ys bs).2.1
      = (xs.take (n_batches xs.length bs * bs)).map pred :=
    flatMap_batch_slice_map pred xs bs (n_batches xs.length bs)
  have h3 : (test_score pred prob xs ys bs).2.2
      = (xs.take (n_batches xs.length bs * bs)).map prob :=
    flatMap_batch_slice_map prob xs bs (n_batches xs.length bs)
  refine ⟨⟨?_, ?_, ?_⟩, ?_⟩
  · rw [h1, List.length_take]
    omega
  · rw [h2, List.length_map, List.length_take]
    omega
  · rw [h3, List.length_map, List.length_take]
    omega
  · intro k hk
    refine ⟨?_, ?_, ?_⟩
    · rw [h1, List.getElem?_take, if_pos hk]
    · rw [h2, List.getElem?_map, List.getElem?_take, if_pos hk]
    · rw [h3, List.getElem?_map, List.getElem?_take, if_pos hk]

/-- Witness for C7: two batches of size four give sequences of length 8. -/
theorem C7_test_score_order_witness :
    (test_score (fun x => x + 1) (fun x => x * 2) exListEight exListEight
        4).1.length = 8 ∧
    (test_score (fun x => x + 1) (fun x => x * 2) exListEight exListEight
        4).2.1.length = 8 :=
  ⟨((C7_test_score_order (fun x => x + 1) (fun x => x * 2) exListEight
      exListEight 4 rfl).1).1,
    ((C7_test_score_order (fun x => x + 1) (fun x => x * 2) exListEight
      exListEight 4 rfl).1).2.1⟩

/-- C3 (counterexample): with dataset size 10 and batch size 4 - which does
not divide 10 - evaluation returns ordinary sequences of length 8, silently
dropping examples 8 and 9 instead of failing; with an update mask of length 1
against 4 secondary parameters, the masked update construction returns an
ordinary update list of length 1, silently truncated instead of failing. -/
theorem C3_counterexample_no_failure :
    (test_score (fun x => x + 1) (fun x => x * 2) exListTen exListTen
        4).2.1.length = 8 ∧
    exListTen.length = 10 ∧
    (finetune_updates_reuse 1 [0, 1, 2, 3] [1, 2, 3, 4] storeC 1
        [1]).length = 1 ∧
    ([0, 1, 2, 3] : List Nat).length = 4 :=
  ⟨rfl, rfl, rfl, rfl⟩

/-- C3 (amended): a batch size that does not divide the dataset size is not
surfaced as an error: evaluation silently covers exactly
`(size / batch_size) * batch_size` examples, strictly fewer than the whole
dataset; an update mask whose length differs from the secondary parameter
set's length is not surfaced either: the Python `zip` silently truncates the
update list to the shortest of the four zipped sequences. -/
theorem C3_amended_silent_truncation {α β γ : Type} (pred : α → β)
    (prob : α → γ) (xs : List α) (ys : List Nat) (bs : Nat)
    (_hbs : 0 < bs) (hnd : xs.length % bs ≠ 0) :
    ((test_score pred prob xs ys bs).2.1.length
        = n_batches xs.length bs * bs
      ∧ n_batches xs.length bs * bs < xs.length) ∧
    ∀ (nl : Nat) (p : List Nat) (g : List ℚ) (store : Store) (lr : ℚ)
      (m : List Nat), (∀ x ∈ m, x = 0 ∨ x = 1) →
      (finetune_updates_reuse nl p g store lr m).length
        = min (min p.length g.length) (min m.length ((nl + 1) * 2)) := by
  refine ⟨⟨?_, ?_⟩, ?_⟩
  · have h2 : (test_score pred prob xs ys bs).2.1
        = (xs.take (n_batches xs.length bs * bs)).map pred :=
      flatMap_batch_slice_map pred xs bs (n_batches xs.length bs)
    have hcover : n_batches xs.length bs * bs ≤ xs.length :=
      Nat.div_mul_le_self xs.length bs
    rw [h2, List.length_map, List.length_take]
    omega
  · have h1 : bs * (xs.length / bs) + xs.length % bs = xs.length :=
      Nat.div_add_mod xs.length bs
    have h2 : xs.length / bs * bs = bs * (xs.length / bs) := Nat.mul_comm _ _
    have hm0 : 0 < xs.length % bs := Nat.pos_of_ne_zero hnd
    have hlt : xs.length / bs * bs < xs.length := by omega
    exact hlt
  · intro nl p g store lr m hm
    rw [finetune_updates_reuse,
      reuse_updates_length_mask01 p g m (List.range ((nl + 1) * 2)) store lr hm,
      zip4_length]
    rw [List.length_range]

/-- Witness for C3 (amended) at dataset size 10, batch size 4. -/
theorem C3_amended_silent_truncation_witness :
    (test_score (fun x => x + 1) (fun x => x * 2) exListTen exListTen
        4).2.1.length = n_batches 10 4 * 4 ∧ n_batches 10 4 * 4 < 10 :=
  (C3_amended_silent_truncation (fun x => x + 1) (fun x => x * 2) exListTen
      exListTen 4 (by decide) (by decide)).1

/-- C5: a pretraining step for layer `i` changes only that layer's shared
weight and bias cells (plus the dA's private visible bias, which is not an
SdA parameter): the weight and bias of every other layer and of both output
heads are bit-identical before and after the step. -/
theorem C5_pretrain_frame (n_ins : Nat) (hs : List Nat) (s : SdAState)
    (h : SdA_init n_ins hs = some s) (i : Nat) (newW newB newBp : ℚ)
    (store : Store) :
    (∀ j, j < s.n_layers → j ≠ i →
      pretrain_step s i newW newB newBp store
          ((s.sigmoid_layers.getD j hlDefault).W)
        = store ((s.sigmoid_layers.getD j hlDefault).W) ∧
      pretrain_step s i newW newB newBp store
          ((s.sigmoid_layers.getD j hlDefault).b)
        = store ((s.sigmoid_layers.getD j hlDefault).b)) ∧
    (pretrain_step s i newW newB newBp store s.logLayer.1
        = store s.logLayer.1 ∧
      pretrain_step s i newW newB newBp store s.logLayer.2
        = store s.logLayer.2) ∧
    (pretrain_step s i newW newB newBp store s.logLayer_b.1
        = store s.logLayer_b.1 ∧
      pretrain_step s i newW newB newBp store s.logLayer_b.2
        = store s.logLayer_b.2) := by
  obtain ⟨hnl, hsl, -, -, hlog, hlogb, -, hda⟩ := SdA_init_fields n_ins hs s h
  by_cases hi : i < hs.length
  · have hlayer : (sdaLayers n_ins hs)[i]? = some (mkLayer n_ins hs i) := by
      rw [sdaLayers, List.getElem?_map, List.getElem?_range hi]
      rfl
    have hidx : s.dA_layers[i]?
        = some (2 * i, 2 * i + 1, 2 * hs.length + 4 + i) := by
      rw [hda, List.getElem?_map, List.getElem?_enum, hlayer]
      rfl
    have hstep : ∀ t, pretrain_step s i newW newB newBp store t
        = applyUpdates store [(2 * i, newW), (2 * i + 1, newB),
            (2 * hs.length + 4 + i, newBp)] t := by
      intro t
      rw [pretrain_step, hidx]
    have hframe : ∀ t, t ≠ 2 * i → t ≠ 2 * i + 1 →
        t ≠ 2 * hs.length + 4 + i →
        applyUpdates store [(2 * i, newW), (2 * i + 1, newB),
          (2 * hs.length + 4 + i, newBp)] t = store t := by
      intro t h1 h2 h3
      have hb1 : ((2 * i : Nat) == t) = false :=
        beq_eq_false_iff_ne.2 (Ne.symm h1)
      have hb2 : ((2 * i + 1 : Nat) == t) = false :=
        beq_eq_false_iff_ne.2 (Ne.symm h2)
      have hb3 : ((2 * hs.length + 4 + i : Nat) == t) = false :=
        beq_eq_false_iff_ne.2 (Ne.symm h3)
      simp only [applyUpdates, List.find?_cons, hb1, hb2, hb3, List.find?_nil]
    refine ⟨?_, ⟨?_, ?_⟩, ?_, ?_⟩
    · intro j hj hne
      have hj' : j < hs.length := hnl ▸ hj
      rw [hsl, sdaLayers_getD n_ins hs j hj']
      constructor
      · rw [hstep]
        exact hframe (2 * j) (by omega) (by omega) (by omega)
      · rw [hstep]
        exact hframe (2 * j + 1) (by omega) (by omega) (by omega)
    · rw [hlog, hstep]
      exact hframe (2 * hs.length) (by omega) (by omega) (by omega)
    · rw [hlog, hstep]
      exact hframe (2 * hs.length + 1) (by omega) (by omega) (by omega)
    · rw [hlogb, hstep]
      exact hframe (2 * hs.length + 2) (by omega) (by omega) (by omega)
    · rw [hlogb, hstep]
      exact hframe (2 * hs.length + 3) (by omega) (by omega) (by omega)
  · have hidx : s.dA_layers[i]? = none := by
      rw [hda]
      apply List.getElem?_eq_none
      simp only [List.length_map, List.enum_length, sdaLayers_length]
      omega
    have hstep : ∀ t, pretrain_step s i newW newB newBp store t = store t := by
      intro t
      rw [pretrain_step, hidx]
    exact ⟨fun j hj hne => ⟨hstep _, hstep _⟩, ⟨hstep _, hstep _⟩,
      hstep _, hstep _⟩

/-- Witness for C5: pretraining layer 0 of `SdA_init 10 [5, 3]` leaves layer
1's weight cell unchanged. -/
theorem C5_pretrain_frame_witness :
    pretrain_step sEx 0 5 6 7 storeC ((sEx.sigmoid_layers.getD 1 hlDefault).W)
      = storeC ((sEx.sigmoid_layers.getD 1 hlDefault).W) :=
  ((C5_pretrain_frame 10 [5, 3] sEx (by decide) 0 5 6 7 storeC).1 1
    (by decide) (by decide)).1
